import Mathlib

/-!
Verification of the MIRI/JWST NGC 7469 analysis notebook.

The notebook is a linear script over numpy/pandas/astropy.  We embed its four
stages shallowly: machine floats that may hold NaN become `Option ℚ` (with NaN
as `none`, the "missing marker"), numpy/pandas aggregations become explicit
list functions with the documented NaN-skipping semantics, and code that can
raise becomes `Except`.  Real-valued cosmology lives in `ℝ`.
-/

namespace NGC7469

/-- A scientific floating value: `none` models an IEEE NaN (the missing
marker), `some q` a real measurement, represented exactly as a rational. -/
abbrev SciVal := Option ℚ

/-- One row of a wavelength/flux table (one CSV line): the wavelength column
holds a real number, the flux column may hold the missing marker. -/
structure SpecRow where
  wavelength : ℚ
  flux : SciVal
  deriving DecidableEq

/-- pandas Series.max with its default skipna=True: NaN entries are ignored,
and the max of an empty or all-NaN series is NaN.  Models the expression
df [Flux][mask].max() in the notebook. -/
def seriesMax (vs : List SciVal) : SciVal := (vs.filterMap id).max?

/-- The boolean row mask of detect_flux: rows whose wavelength is strictly
between w - tol and w + tol, applied to the table. -/
def windowSel (df : List SpecRow) (w tol : ℚ) : List SpecRow :=
  df.filter (fun r =>
    decide (w - tol < r.wavelength) && decide (r.wavelength < w + tol))

/-- Embedding of the notebook function detect_flux(df, wavelength, tol=0.1):
select the rows with wavelength strictly between w - tol and w + tol; if any
row is selected return the pandas max of their fluxes, else NaN.  The
tolerance is passed explicitly here; the source default is 0.1. -/
def detect_flux (df : List SpecRow) (w tol : ℚ) : SciVal :=
  if (windowSel df w tol).isEmpty then none
  else seriesMax ((windowSel df w tol).map (fun r => r.flux))

/-- Python float greater-than where either operand may be NaN: any comparison
involving NaN evaluates to False. -/
def gtNaN (a b : SciVal) : Bool :=
  match a, b with
  | some x, some y => decide (y < x)
  | _, _ => false

/-- The tabulator field Stronger In for one row: Region 1 if f1 > f2, else
Region 2 if f2 > f1, else the Equal/― placeholder.  String literals match the
source. -/
def strongerIn (f1 f2 : SciVal) : String :=
  if gtNaN f1 f2 then "Region 1"
  else if gtNaN f2 f1 then "Region 2"
  else "Equal/—"

/-- Two-decimal fixed-point rendering of a rational, matching the format spec
.2f of the source on the exact values that arise in the claims (ties are
rounded half-up here; every concrete value below is an exact multiple of
1/100, where the two rules agree). -/
def ratFmt2 (q : ℚ) : String :=
  let n : Int := round (q * 100)
  let m := n.natAbs
  let frac := m % 100
  (if n < 0 then "-" else "") ++ toString (m / 100) ++ "." ++
    (if frac < 10 then "0" else "") ++ toString frac

/-- Formatting of a detected flux in a summary row: two decimals, or the
em-dash placeholder when the value is NaN (np.isnan branch in the source). -/
def fmtFlux (v : SciVal) : String :=
  match v with
  | none => "—"
  | some q => ratFmt2 q

/-- One row of the emission-line summary table, with the same five fields the
source builds. -/
structure SummaryRow where
  line : String
  wavelengthRef : ℚ
  region1Flux : String
  region2Flux : String
  stronger : String
  deriving DecidableEq

/-- Embedding of the tabulator loop body building one summary row for catalog
line (name, wl) from the two region tables; tolerance is the source default
0.1. -/
def mkSummaryRow (name : String) (wl : ℚ) (df1 df2 : List SpecRow) : SummaryRow :=
  let f1 := detect_flux df1 wl (1/10)
  let f2 := detect_flux df2 wl (1/10)
  { line := name
    wavelengthRef := wl
    region1Flux := fmtFlux f1
    region2Flux := fmtFlux f2
    stronger := strongerIn f1 f2 }

/-- The module-level line catalog of the notebook. -/
def lines : List (String × ℚ) :=
  [("PAH 6.2", 6.2), ("PAH 7.7", 7.7), ("PAH 8.6", 8.6),
   ("[S IV] 10.51", 10.51), ("PAH 11.3", 11.3), ("[Ne II] 12.81", 12.81),
   ("[Ne V] 14.32", 14.32), ("[Ne III] 15.55", 15.55),
   ("[S III] 18.71", 18.71), ("[Ne V] 24.31", 24.31),
   ("[O IV] 25.89", 25.89), ("[S III] 33.48", 33.48)]

/-- The overlay loop guard wavelengths.min() < wl < wavelengths.max(): pandas
min/max of an empty series is NaN and a comparison against NaN is False, hence
the `none` branch. -/
def drawsMarker (wavelengths : List ℚ) (wl : ℚ) : Bool :=
  match wavelengths.min?, wavelengths.max? with
  | some lo, some hi => decide (lo < wl) && decide (wl < hi)
  | _, _ => false

/-- The overlay loop over the catalog: the entries that receive a vertical
marker and a text label. -/
def overlayLines (catalog : List (String × ℚ)) (wavelengths : List ℚ) :
    List (String × ℚ) :=
  catalog.filter (fun nw => drawsMarker wavelengths nw.2)

/-- One wavelength slice of the data cube: a grid of pixel values. -/
abbrev Slice := List (List SciVal)

/-- np.nanmean over the flattened values: the mean of the non-NaN entries, NaN
when there are none. -/
def nanmean (vs : List SciVal) : SciVal :=
  let rs := vs.filterMap id
  if rs.isEmpty then none else some (rs.sum / (rs.length : ℚ))

/-- The object returned by region.to_mask with mode center in the regions
library: an integer anchor (ixmin, iymin) of the bounding box and a boolean
grid over the box recording which pixel centers fall inside the region
shape. -/
structure RegionMask where
  ixmin : Int
  iymin : Int
  data : List (List Bool)
  deriving DecidableEq

/-- Number of bounding-box rows of a mask. -/
def RegionMask.ny (m : RegionMask) : Nat := m.data.length

/-- Number of bounding-box columns of a mask. -/
def RegionMask.nx (m : RegionMask) : Nat := (m.data.headD []).length

/-- Image height of a slice. -/
def sliceH (s : Slice) : Nat := s.length

/-- Image width of a slice (the cube array is rectangular; lemmas carry the
rectangularity hypothesis explicitly). -/
def sliceW (s : Slice) : Nat := (s.headD []).length

/-- Whether the integer position (y, x) lies on the image grid of slice s. -/
def onImage (s : Slice) (y x : Int) : Bool :=
  decide (0 ≤ y) && decide (y < (sliceH s : Int)) &&
    decide (0 ≤ x) && decide (x < (sliceW s : Int))

/-- Pixel lookup used by the cutout: the image value at (y, x), or the NaN
fill value for positions off the image (the notebook passes
fill_value = np.nan). -/
def fillGet (s : Slice) (y x : Int) : SciVal :=
  if 0 ≤ y ∧ 0 ≤ x then (((s[y.toNat]?).getD [])[x.toNat]?).getD none
  else none

/-- The grid of values the library call mask.cutout reads: one value per
bounding-box cell, NaN fill for cells off the image.  The boolean mask data is
not consulted: cutout uses only the bounding box. -/
def cutoutGrid (m : RegionMask) (s : Slice) : List (List SciVal) :=
  (List.range m.ny).map (fun (i : Nat) =>
    (List.range m.nx).map (fun (j : Nat) =>
      fillGet s (m.iymin + (i : Int)) (m.ixmin + (j : Int))))

/-- Whether the mask bounding box overlaps the image grid at all. -/
def RegionMask.overlaps (m : RegionMask) (s : Slice) : Bool :=
  (List.range m.ny).any (fun (i : Nat) =>
    (List.range m.nx).any (fun (j : Nat) =>
      onImage s (m.iymin + (i : Int)) (m.ixmin + (j : Int))))

/-- Embedding of RegionMask.cutout(data, fill_value=np.nan) of the regions
library: the bounding-box cutout of the slice with NaN fill where the box
leaves the image, and Python None (here `Option.none`) when the box does not
overlap the image at all. -/
def RegionMask.cutout (m : RegionMask) (s : Slice) : Option (List (List SciVal)) :=
  if m.overlaps s then some (cutoutGrid m s) else none

/-- Embedding of the notebook loop extract_spectrum_from_region: per slice,
np.nanmean of the cutout.  np.nanmean(None), which Python reaches when the
cutout has no overlap, raises a TypeError, modelled as `Except.error`. -/
def extract_spectrum_from_region (cube : List Slice) (m : RegionMask) :
    Except Unit (List SciVal) :=
  match cube with
  | [] => .ok []
  | s :: rest =>
    match m.cutout s with
    | none => .error ()
    | some g =>
      match extract_spectrum_from_region rest m with
      | .error e => .error e
      | .ok vs => .ok (nanmean g.flatten :: vs)

/-- Rasterization of a circular region by CirclePixelRegion.to_mask with mode
center in the regions library: the bounding box has ixmin = floor(xc - r + 1/2)
and exclusive upper edge ixmax = ceil(xc + r + 1/2) (same for y), and a grid
cell is True iff the pixel center at (ixmin + j, iymin + i) lies strictly
inside the circle. -/
def circleToMask (xc yc r : ℚ) : RegionMask :=
  let ixmin : Int := ⌊xc - r + 1/2⌋
  let ixmax : Int := ⌈xc + r + 1/2⌉
  let iymin : Int := ⌊yc - r + 1/2⌋
  let iymax : Int := ⌈yc + r + 1/2⌉
  { ixmin := ixmin
    iymin := iymin
    data := (List.range (iymax - iymin).toNat).map (fun (i : Nat) =>
      (List.range (ixmax - ixmin).toNat).map (fun (j : Nat) =>
        decide ((xc - ((ixmin + (j : Int) : Int) : ℚ))^2 +
                (yc - ((iymin + (i : Int) : Int) : ℚ))^2 < r^2))) }

/-- Follows the words of spec section 4.2 rather than the source: the
in-region pixel values are exactly the cutout cells whose mask data is True
(out-of-region cells are replaced by the missing marker, which the
NaN-ignoring mean then drops). -/
def specInRegionValues (m : RegionMask) (s : Slice) : List SciVal :=
  ((List.range m.ny).map (fun (i : Nat) =>
    (List.range m.nx).filterMap (fun (j : Nat) =>
      if (m.data.getD i []).getD j false then
        some (fillGet s (m.iymin + (i : Int)) (m.ixmin + (j : Int)))
      else none))).flatten

/-- The per-slice flux the spec describes: NaN-ignoring mean of the in-region
values only. -/
def specSliceFlux (m : RegionMask) (s : Slice) : SciVal :=
  nanmean (specInRegionValues m s)

/-- Whether two slices agree on every pixel the mask marks as in-region (used
to express that a value change confined to out-of-region pixels must not
change the extracted flux). -/
def agreeOnRegion (m : RegionMask) (s1 s2 : Slice) : Bool :=
  (List.range m.ny).all (fun (i : Nat) =>
    (List.range m.nx).all (fun (j : Nat) =>
      !((m.data.getD i []).getD j false) ||
        decide (fillGet s1 (m.iymin + (i : Int)) (m.ixmin + (j : Int)) =
                fillGet s2 (m.iymin + (i : Int)) (m.ixmin + (j : Int)))))

/-- The mask of the notebook region for the concrete bug inputs: a circle of
radius 1.2 centered on pixel (1, 1).  Its center-containment raster is the
plus-shaped 3x3 grid anchored at (0, 0). -/
def bugMask : RegionMask := circleToMask 1 1 (6/5)

/-- A 3x3 slice whose in-region (plus-shaped) pixels all hold 1 and whose
out-of-region corner pixels hold 100. -/
def sliceHi : Slice :=
  [[some 100, some 1, some 100],
   [some 1, some 1, some 1],
   [some 100, some 1, some 100]]

/-- The same slice as `sliceHi` except the out-of-region corners hold 0. -/
def sliceLo : Slice :=
  [[some 0, some 1, some 0],
   [some 1, some 1, some 1],
   [some 0, some 1, some 0]]

/-- A 3x3 slice whose in-region (plus-shaped) pixels are all NaN and whose
out-of-region corners hold the real value 2. -/
def gapSlice : Slice :=
  [[some 2, none, some 2],
   [none, none, none],
   [some 2, none, some 2]]

/-- Planck18 matter density parameter Om0. -/
noncomputable def Om0 : ℝ := 0.30966

/-- Dimensionless Hubble rate E(x) of flat Lambda-CDM at redshift x. -/
noncomputable def Efunc (x : ℝ) : ℝ := Real.sqrt (Om0 * (1 + x)^3 + (1 - Om0))

/-- Hubble distance c / H0 in Mpc for Planck18 (H0 = 67.66 km/s/Mpc). -/
noncomputable def hubbleDistanceMpc : ℝ := 299792.458 / 67.66

/-- Modelled from the spec: the proper transverse distance per unit angle at
redshift z, in pc per arcsec, which the notebook obtains from the astropy
library call Planck18.kpc_proper_per_arcmin(z).to(pc per arcsec) (library
code, not part of this repository).  For the flat Lambda-CDM model this is the
line-of-sight comoving distance divided by (1 + z), converted from Mpc per
radian to pc per arcsec. -/
noncomputable def properDistPerArcsec (z : ℝ) : ℝ :=
  (hubbleDistanceMpc * ∫ x in (0:ℝ)..z, 1 / Efunc x) / (1 + z) *
    (Real.pi / 648000) * 1000000

/-- The notebook value pix_scale_pc = cdelt1 * scale: the physical pixel size
from the angular pixel step (arcsec) and the redshift. -/
noncomputable def pix_scale_pc (cdelt1 z : ℝ) : ℝ := cdelt1 * properDistPerArcsec z

/-- Embedding of the pixel-scale cell: reading hdr [CDELT1] raises a KeyError
when the field is absent (Except.error); otherwise cdelt1 = abs(value) * 3600
and the physical scale is cdelt1 * scale. -/
noncomputable def pixelScaleCalc (hdr : List (String × ℝ)) (z : ℝ) :
    Except Unit (ℝ × ℝ) :=
  match hdr.lookup "CDELT1" with
  | none => .error ()
  | some v => .ok (|v| * 3600, pix_scale_pc (|v| * 3600) z)

/-- Antisymmetry instance of the rational order, needed by the list max
characterization. -/
instance : Std.Antisymm ((· : ℚ) ≤ ·) := ⟨@fun _ _ h h2 => le_antisymm h h2⟩

/-! Theorems. -/

/-- Helper: restricting a list to the entries on which a partial map is
defined does not change the result of the partial map. -/
theorem filterMap_filter_isSome {α β : Type} (f : α → Option β) (l : List α) :
    (l.filter (fun a => (f a).isSome)).filterMap f = l.filterMap f := by
  induction l with
  | nil => rfl
  | cons a l ih =>
    cases h : f a <;>
      simp [List.filter_cons, List.filterMap_cons, h, ih]

/-- Helper: the wavelength-window selection commutes with any row filter. -/
theorem windowSel_filter_comm (df : List SpecRow) (w t : ℚ) (p : SpecRow → Bool) :
    windowSel (df.filter p) w t = (windowSel df w t).filter p := by
  unfold windowSel
  rw [List.filter_filter, List.filter_filter]
  apply List.filter_congr
  intro r _
  exact Bool.and_comm _ _

/-- Helper: the pandas max of the flux column over a row list. -/
theorem seriesMax_map_flux (sel : List SpecRow) :
    seriesMax (sel.map (fun r => r.flux)) =
      (sel.filterMap (fun r => r.flux)).max? := by
  unfold seriesMax
  rw [List.filterMap_map]
  rfl

/-- C2: in the Stronger In classification every numeric comparison involving
the missing marker evaluates to false, so a row with a missing detected flux
is classified Equal regardless of the other table, and in particular detected
fluxes 5.0 and missing classify as Equal. -/
theorem strongerIn_missing_is_equal :
    (∀ x : SciVal,
      gtNaN none x = false ∧ gtNaN x none = false ∧
      strongerIn none x = "Equal/—" ∧ strongerIn x none = "Equal/—") ∧
    (∀ (name : String) (wl : ℚ) (df1 df2 : List SpecRow),
      detect_flux df1 wl (1/10) = none ∨ detect_flux df2 wl (1/10) = none →
      (mkSummaryRow name wl df1 df2).stronger = "Equal/—") ∧
    strongerIn (some 5) none = "Equal/—" := by
  have hbase : ∀ x : SciVal,
      gtNaN none x = false ∧ gtNaN x none = false ∧
      strongerIn none x = "Equal/—" ∧ strongerIn x none = "Equal/—" := by
    intro x
    cases x <;> simp [gtNaN, strongerIn]
  refine ⟨hbase, ?_, rfl⟩
  intro name wl df1 df2 h
  have hgoal : (mkSummaryRow name wl df1 df2).stronger =
      strongerIn (detect_flux df1 wl (1/10)) (detect_flux df2 wl (1/10)) := rfl
  rw [hgoal]
  rcases h with h | h
  · rw [h]
    exact (hbase _).2.2.1
  · rw [h]
    exact (hbase _).2.2.2

/-- Witness for C2, the concrete scenario of the spec: table A holds the row
(12.75, 5.0), table B is empty near the 12.81 line, so the detected fluxes
are 5.0 and missing and the row classifies as Equal. -/
theorem strongerIn_missing_is_equal_witness :
    (mkSummaryRow "[Ne II] 12.81" 12.81 [⟨12.75, some 5⟩] []).stronger =
      "Equal/—" :=
  strongerIn_missing_is_equal.2.1 "[Ne II] 12.81" 12.81 [⟨12.75, some 5⟩] []
    (Or.inr (by with_unfolding_all decide))

/-- Helper for the antisymmetry of the classification: swapping the two
detected fluxes swaps the two region labels and fixes the Equal label. -/
theorem strongerIn_swap (f1 f2 : SciVal) :
    (strongerIn f1 f2 = "Region 1" ∧ strongerIn f2 f1 = "Region 2") ∨
    (strongerIn f1 f2 = "Region 2" ∧ strongerIn f2 f1 = "Region 1") ∨
    (strongerIn f1 f2 = "Equal/—" ∧ strongerIn f2 f1 = "Equal/—") := by
  cases f1 with
  | none => cases f2 <;> simp [strongerIn, gtNaN]
  | some x =>
    cases f2 with
    | none => simp [strongerIn, gtNaN]
    | some y =>
      rcases lt_trichotomy x y with h | h | h
      · exact Or.inr (Or.inl ⟨by simp [strongerIn, gtNaN, h, lt_asymm h],
          by simp [strongerIn, gtNaN, h]⟩)
      · subst h
        exact Or.inr (Or.inr ⟨by simp [strongerIn, gtNaN],
          by simp [strongerIn, gtNaN]⟩)
      · exact Or.inl ⟨by simp [strongerIn, gtNaN, h],
          by simp [strongerIn, gtNaN, h, lt_asymm h]⟩

/-- C10: the per-line summary row is antisymmetric in the two tables: swapping
the tables swaps the two formatted flux fields, swaps the Region 1 and
Region 2 classifications and keeps Equal rows Equal. -/
theorem mkSummaryRow_antisymm (name : String) (wl : ℚ) (df1 df2 : List SpecRow) :
    (mkSummaryRow name wl df2 df1).region1Flux =
      (mkSummaryRow name wl df1 df2).region2Flux ∧
    (mkSummaryRow name wl df2 df1).region2Flux =
      (mkSummaryRow name wl df1 df2).region1Flux ∧
    ((mkSummaryRow name wl df1 df2).stronger = "Region 1" →
      (mkSummaryRow name wl df2 df1).stronger = "Region 2") ∧
    ((mkSummaryRow name wl df1 df2).stronger = "Region 2" →
      (mkSummaryRow name wl df2 df1).stronger = "Region 1") ∧
    ((mkSummaryRow name wl df1 df2).stronger = "Equal/—" →
      (mkSummaryRow name wl df2 df1).stronger = "Equal/—") := by
  refine ⟨rfl, rfl, ?_, ?_, ?_⟩ <;>
    · intro h
      rcases strongerIn_swap (detect_flux df1 wl (1/10)) (detect_flux df2 wl (1/10)) with
        ⟨h1, h2⟩ | ⟨h1, h2⟩ | ⟨h1, h2⟩ <;>
        simp_all [mkSummaryRow]

/-- Witness for C10 at concrete inputs: two empty tables give an Equal row,
and the swapped run keeps it Equal. -/
theorem mkSummaryRow_antisymm_witness :
    (mkSummaryRow "PAH 7.7" 7.7 [] []).stronger = "Equal/—" :=
  (mkSummaryRow_antisymm "PAH 7.7" 7.7 [] []).2.2.2.2 (by with_unfolding_all decide)

/-- C5: with a nonempty wavelength table, a catalog wavelength receives an
overlay marker iff it lies strictly inside the open interval between the table
minimum and maximum; an exact boundary match is excluded, and the overlay loop
keeps exactly the catalog entries satisfying the open-interval test. -/
theorem overlay_marker_iff (wls : List ℚ) (wl lo hi : ℚ)
    (hlo : wls.min? = some lo) (hhi : wls.max? = some hi) :
    (drawsMarker wls wl = true ↔ lo < wl ∧ wl < hi) ∧
    drawsMarker wls lo = false ∧ drawsMarker wls hi = false ∧
    ∀ (catalog : List (String × ℚ)) (entry : String × ℚ),
      (entry ∈ overlayLines catalog wls ↔
        entry ∈ catalog ∧ lo < entry.2 ∧ entry.2 < hi) := by
  have hmain : ∀ w : ℚ, drawsMarker wls w = true ↔ lo < w ∧ w < hi := by
    intro w
    unfold drawsMarker
    rw [hlo, hhi]
    simp
  refine ⟨hmain wl, ?_, ?_, ?_⟩
  · rw [Bool.eq_false_iff]
    intro h
    exact lt_irrefl lo ((hmain lo).mp h).1
  · rw [Bool.eq_false_iff]
    intro h
    exact lt_irrefl hi ((hmain hi).mp h).2
  · intro catalog entry
    rw [overlayLines, List.mem_filter, hmain entry.2]

/-- Witness for C5: on the table with wavelengths 6.2, 7, 8 the catalog
wavelength 7 receives a marker. -/
theorem overlay_marker_iff_witness : drawsMarker [6.2, 7, 8] 7 = true :=
  (overlay_marker_iff [6.2, 7, 8] 7 6.2 8 (by with_unfolding_all decide)
    (by with_unfolding_all decide)).1.mpr (by norm_num)

/-- C3: detect_flux selects exactly the table rows strictly inside the open
interval (w - t, w + t); an empty selection gives the missing marker, a
result value is a selected flux that bounds every selected flux from above,
and any selected real flux prevents a missing result. -/
theorem detect_flux_window_max (df : List SpecRow) (w t : ℚ) :
    (∀ r : SpecRow, r ∈ windowSel df w t ↔
        r ∈ df ∧ w - t < r.wavelength ∧ r.wavelength < w + t) ∧
    (windowSel df w t = [] → detect_flux df w t = none) ∧
    (∀ q : ℚ, detect_flux df w t = some q →
        q ∈ (windowSel df w t).filterMap (fun r => r.flux) ∧
        ∀ p ∈ (windowSel df w t).filterMap (fun r => r.flux), p ≤ q) ∧
    (∀ q : ℚ, q ∈ (windowSel df w t).filterMap (fun r => r.flux) →
        detect_flux df w t ≠ none) := by
  refine ⟨?_, ?_, ?_, ?_⟩
  · intro r
    simp [windowSel, List.mem_filter, and_assoc]
  · intro h
    simp [detect_flux, h]
  · intro q hq
    unfold detect_flux at hq
    split at hq
    · exact absurd hq (by simp)
    · rw [seriesMax_map_flux] at hq
      have h := (List.max?_eq_some_iff (fun a : ℚ => le_refl a)
        (fun a b => max_choice a b) (fun a b c => max_le_iff)).mp hq
      exact h
  · intro q hq hnone
    unfold detect_flux at hnone
    split at hnone
    · rename_i hemp
      rw [List.isEmpty_iff] at hemp
      rw [hemp] at hq
      simp at hq
    · rw [seriesMax_map_flux, List.max?_eq_none_iff] at hnone
      rw [hnone] at hq
      simp at hq

/-- Witness for C3: a table whose only row is far from the line gives the
missing marker. -/
theorem detect_flux_window_max_witness :
    detect_flux [⟨5, some 1⟩] 12.81 (1/10) = none :=
  (detect_flux_window_max [⟨5, some 1⟩] 12.81 (1/10)).2.1
    (by with_unfolding_all decide)

/-- C9: rows whose flux is the missing marker are ignored by detect_flux
(dropping them changes nothing), and a non-empty selection whose fluxes are
all missing yields the missing marker, rendered as the em-dash. -/
theorem detect_flux_ignores_missing :
    (∀ (df : List SpecRow) (w t : ℚ),
        detect_flux df w t =
          detect_flux (df.filter (fun r => r.flux.isSome)) w t) ∧
    (∀ (df : List SpecRow) (w t : ℚ), windowSel df w t ≠ [] →
        (∀ r ∈ windowSel df w t, r.flux = none) →
        detect_flux df w t = none ∧ fmtFlux (detect_flux df w t) = "—") := by
  have hmap : ∀ (df : List SpecRow) (w t : ℚ),
      (windowSel (df.filter (fun r => r.flux.isSome)) w t).filterMap
          (fun r => r.flux) =
        (windowSel df w t).filterMap (fun r => r.flux) := by
    intro df w t
    rw [windowSel_filter_comm]
    exact filterMap_filter_isSome (fun r => r.flux) (windowSel df w t)
  constructor
  · intro df w t
    by_cases hsel : windowSel df w t = []
    · have hsel2 : windowSel (df.filter (fun r => r.flux.isSome)) w t = [] := by
        rw [windowSel_filter_comm, hsel]
        rfl
      simp [detect_flux, hsel, hsel2]
    · by_cases hsel2 : windowSel (df.filter (fun r => r.flux.isSome)) w t = []
      · have hnil : (windowSel df w t).filterMap (fun r => r.flux) = [] := by
          rw [← hmap df w t, hsel2]
          rfl
        simp [detect_flux, hsel, hsel2, seriesMax_map_flux, hnil,
          List.isEmpty_iff]
      · simp only [detect_flux, seriesMax_map_flux, hmap df w t,
          List.isEmpty_iff]
        rw [if_neg hsel, if_neg hsel2]
  · intro df w t hne hall
    have hnil : (windowSel df w t).filterMap (fun r => r.flux) = [] :=
      List.filterMap_eq_nil_iff.mpr hall
    have hmain : detect_flux df w t = none := by
      simp [detect_flux, seriesMax_map_flux, hnil, List.isEmpty_iff, hne]
    exact ⟨hmain, by rw [hmain]; rfl⟩

/-- Witness for C9: a table with one in-window row of missing flux gives the
missing marker, rendered as the em-dash. -/
theorem detect_flux_ignores_missing_witness :
    detect_flux [⟨12.75, none⟩] 12.81 (1/10) = none ∧
    fmtFlux (detect_flux [⟨12.75, none⟩] 12.81 (1/10)) = "—" :=
  detect_flux_ignores_missing.2 [⟨12.75, none⟩] 12.81 (1/10)
    (by with_unfolding_all decide) (by with_unfolding_all decide)

/-- C1 (refuted, code bug): the source computes each slice flux as
np.nanmean over the bounding-box cutout, never applying the boolean mask
data, so the flux does depend on out-of-region pixels.  Concretely, for the
circle of radius 1.2 at (1, 1) on a 3x3 slice, the two slices sliceHi and
sliceLo agree on every in-region pixel (all hold 1, so the spec-side masked
mean is 1 for both), yet the extractor returns 45 on one and 5/9 on the
other because the out-of-region corners differ. -/
theorem extract_uses_out_of_region_pixels :
    agreeOnRegion bugMask sliceHi sliceLo = true ∧
    specSliceFlux bugMask sliceHi = some 1 ∧
    specSliceFlux bugMask sliceLo = some 1 ∧
    extract_spectrum_from_region [sliceHi] bugMask = .ok [some 45] ∧
    extract_spectrum_from_region [sliceLo] bugMask = .ok [some (5/9)] :=
  ⟨by with_unfolding_all decide, by with_unfolding_all decide,
   by with_unfolding_all decide, by with_unfolding_all rfl,
   by with_unfolding_all rfl⟩

/-- C4 (refuted, code bug): a slice whose in-region pixels are all missing
does not yield the missing marker: because the mask data is never applied,
the extractor averages the real-valued out-of-region corners of the bounding
box and returns 2; and for a region whose bounding box misses the image
entirely, the library cutout returns Python None and np.nanmean raises,
so extraction aborts instead of producing one entry for the slice. -/
theorem extract_gap_slice_not_missing :
    specSliceFlux bugMask gapSlice = none ∧
    extract_spectrum_from_region [gapSlice] bugMask = .ok [some 2] ∧
    extract_spectrum_from_region [[[some 1]]] (circleToMask 10 10 (1/2)) =
      .error () :=
  ⟨by with_unfolding_all decide, by with_unfolding_all rfl,
   by with_unfolding_all rfl⟩

/-- Helper: a list of rationals all equal to v sums to length times v. -/
theorem list_sum_const {v : ℚ} :
    ∀ l : List ℚ, (∀ q ∈ l, q = v) → l.sum = (l.length : ℚ) * v := by
  intro l
  induction l with
  | nil => simp
  | cons a l ih =>
    intro h
    rw [List.sum_cons, ih (fun q hq => h q (List.mem_cons_of_mem a hq)),
      h a (List.mem_cons_self a l), List.length_cons]
    push_cast
    ring

/-- Helper: the NaN-ignoring mean of a value list whose real entries all
equal v, with at least one real entry, is v. -/
theorem nanmean_eq_of_uniform {v : ℚ} {vs : List SciVal}
    (hmem : some v ∈ vs) (hall : ∀ x ∈ vs, x = none ∨ x = some v) :
    nanmean vs = some v := by
  have hallv : ∀ q ∈ vs.filterMap id, q = v := by
    intro q hq
    rcases List.mem_filterMap.mp hq with ⟨x, hx, hfx⟩
    rcases hall x hx with h | h
    · rw [h] at hfx
      cases hfx
    · rw [h] at hfx
      cases hfx
      rfl
  have hvmem : v ∈ vs.filterMap id := List.mem_filterMap.mpr ⟨some v, hmem, rfl⟩
  have hne : vs.filterMap id ≠ [] := by
    intro h
    rw [h] at hvmem
    simp at hvmem
  have hlen : ((vs.filterMap id).length : ℚ) ≠ 0 := by
    simpa using fun h => hne (List.eq_nil_of_length_eq_zero h)
  unfold nanmean
  rw [if_neg (by simpa [List.isEmpty_iff] using hne),
    list_sum_const (vs.filterMap id) hallv, mul_div_cancel_left₀ v hlen]

/-- Helper: on a slice whose pixels all hold v, the fill-aware lookup yields
either the NaN fill or v. -/
theorem fillGet_none_or (s : Slice) (v : ℚ)
    (hu : ∀ row ∈ s, ∀ p ∈ row, p = some v) (y x : Int) :
    fillGet s y x = none ∨ fillGet s y x = some v := by
  unfold fillGet
  split
  · cases hr : s[y.toNat]? with
    | none => simp [hr]
    | some row =>
      cases hp : row[x.toNat]? with
      | none => simp [hr, hp]
      | some p =>
        have hrmem : row ∈ s := List.getElem?_mem hr
        have hpmem : p ∈ row := List.getElem?_mem hp
        simp [hr, hp, hu row hrmem p hpmem]
  · exact Or.inl rfl

/-- Helper: on a rectangular slice whose pixels all hold v, the fill-aware
lookup at an on-image position yields v. -/
theorem fillGet_onImage (s : Slice) (v : ℚ)
    (hrect : ∀ row ∈ s, row.length = sliceW s)
    (hu : ∀ row ∈ s, ∀ p ∈ row, p = some v) (y x : Int)
    (h : onImage s y x = true) :
    fillGet s y x = some v := by
  unfold onImage at h
  simp only [Bool.and_eq_true, decide_eq_true_eq] at h
  obtain ⟨⟨⟨hy0, hyH⟩, hx0⟩, hxW⟩ := h
  unfold sliceH at hyH
  unfold sliceW at hxW
  have hyn : y.toNat < s.length := by omega
  have hrow : s[y.toNat]? = some s[y.toNat] := List.getElem?_eq_getElem hyn
  have hrmem : s[y.toNat] ∈ s := List.getElem?_mem hrow
  have hxn : x.toNat < (s[y.toNat]).length := by
    rw [hrect _ hrmem]
    unfold sliceW
    omega
  have hp : (s[y.toNat])[x.toNat]? = some (s[y.toNat])[x.toNat] :=
    List.getElem?_eq_getElem hxn
  have hpmem : (s[y.toNat])[x.toNat] ∈ s[y.toNat] := List.getElem?_mem hp
  unfold fillGet
  rw [if_pos ⟨hy0, hx0⟩, hrow]
  simp [hp, hu _ hrmem _ hpmem]

/-- Helper: every cell of the cutout of a uniform slice is NaN fill or v. -/
theorem cutoutGrid_mem_or (m : RegionMask) (s : Slice) (v : ℚ)
    (hu : ∀ row ∈ s, ∀ p ∈ row, p = some v) :
    ∀ x ∈ (cutoutGrid m s).flatten, x = none ∨ x = some v := by
  intro x hx
  rcases List.mem_flatten.mp hx with ⟨l, hl, hxl⟩
  unfold cutoutGrid at hl
  rcases List.mem_map.mp hl with ⟨i, _, rfl⟩
  rcases List.mem_map.mp hxl with ⟨j, _, rfl⟩
  exact fillGet_none_or s v hu _ _

/-- Helper: when the mask box overlaps a uniform rectangular slice, the value
v appears in the cutout. -/
theorem cutoutGrid_some_mem (m : RegionMask) (s : Slice) (v : ℚ)
    (hrect : ∀ row ∈ s, row.length = sliceW s)
    (hu : ∀ row ∈ s, ∀ p ∈ row, p = some v)
    (hov : m.overlaps s = true) :
    some v ∈ (cutoutGrid m s).flatten := by
  unfold RegionMask.overlaps at hov
  rcases List.any_eq_true.mp hov with ⟨i, hi, hrow⟩
  rcases List.any_eq_true.mp hrow with ⟨j, hj, hon⟩
  have hval := fillGet_onImage s v hrect hu _ _ hon
  apply List.mem_flatten.mpr
  refine ⟨(List.range m.nx).map
    (fun (j2 : Nat) => fillGet s (m.iymin + (i : Int)) (m.ixmin + (j2 : Int))),
    ?_, ?_⟩
  · unfold cutoutGrid
    exact List.mem_map_of_mem _ hi
  · exact List.mem_map.mpr ⟨j, hj, hval⟩

/-- C8 (amended): on a cube whose every (rectangular) slice holds the uniform
value v, provided the mask bounding box overlaps the image grid of every
slice, extraction succeeds and returns one entry per slice, each equal to v.
(The overlap proviso is forced: see the off-image counterexample.) -/
theorem extract_uniform_cube (cube : List Slice) (m : RegionMask) (v : ℚ)
    (hrect : ∀ s ∈ cube, ∀ row ∈ s, row.length = sliceW s)
    (hu : ∀ s ∈ cube, ∀ row ∈ s, ∀ p ∈ row, p = some v)
    (hov : ∀ s ∈ cube, m.overlaps s = true) :
    extract_spectrum_from_region cube m =
      .ok (List.replicate cube.length (some v)) := by
  induction cube with
  | nil => rfl
  | cons s rest ih =>
    have hov_s := hov s (List.mem_cons_self s rest)
    have hmean : nanmean (cutoutGrid m s).flatten = some v :=
      nanmean_eq_of_uniform
        (cutoutGrid_some_mem m s v (hrect s (List.mem_cons_self s rest))
          (hu s (List.mem_cons_self s rest)) hov_s)
        (cutoutGrid_mem_or m s v (hu s (List.mem_cons_self s rest)))
    have hrest := ih (fun s2 h2 => hrect s2 (List.mem_cons_of_mem s h2))
      (fun s2 h2 => hu s2 (List.mem_cons_of_mem s h2))
      (fun s2 h2 => hov s2 (List.mem_cons_of_mem s h2))
    simp only [extract_spectrum_from_region, RegionMask.cutout, hov_s,
      if_true, hrest, hmean, List.length_cons, List.replicate_succ]

/-- Witness for C8 (amended): a two-slice uniform cube of value 7 with a
one-pixel region at the origin extracts to two entries equal to 7. -/
theorem extract_uniform_cube_witness :
    extract_spectrum_from_region [[[some 7]], [[some 7]]]
      (circleToMask 0 0 (1/2)) = .ok [some 7, some 7] := by
  have h := extract_uniform_cube [[[some 7]], [[some 7]]]
    (circleToMask 0 0 (1/2)) 7
    (by with_unfolding_all decide) (by with_unfolding_all decide)
    (by with_unfolding_all decide)
  simpa using h

/-- C8 counterexample: for the uniform one-slice cube of value 7 and a region
whose bounding box misses the one-pixel image entirely, extraction raises (the
library cutout is Python None and np.nanmean(None) is a TypeError) instead of
returning a one-entry sequence of 7. -/
theorem extract_uniform_offimage_error :
    extract_spectrum_from_region [[[some 7]]] (circleToMask 5 5 (1/2)) =
      .error () := by
  with_unfolding_all rfl

/-- C6: the pixel-scale cell raises a missing-metadata error on a header
without the CDELT1 field, and when the field is present it reads the value
and completes with cdelt1 = abs(value) * 3600 and the physical scale. -/
theorem pixelScaleCalc_missing_metadata (hdr : List (String × ℝ)) (z : ℝ) :
    (hdr.lookup "CDELT1" = none → pixelScaleCalc hdr z = .error ()) ∧
    (∀ v : ℝ, hdr.lookup "CDELT1" = some v →
      pixelScaleCalc hdr z = .ok (|v| * 3600, pix_scale_pc (|v| * 3600) z)) := by
  constructor
  · intro h
    unfold pixelScaleCalc
    rw [h]
  · intro v h
    unfold pixelScaleCalc
    rw [h]

/-- Witness for C6: the empty header errors; a header holding CDELT1 = 1
completes. -/
theorem pixelScaleCalc_missing_metadata_witness :
    pixelScaleCalc [] 0 = .error () ∧
    pixelScaleCalc [("CDELT1", (1:ℝ))] 0 =
      .ok (|(1:ℝ)| * 3600, pix_scale_pc (|(1:ℝ)| * 3600) 0) :=
  ⟨(pixelScaleCalc_missing_metadata [] 0).1 rfl,
   (pixelScaleCalc_missing_metadata [("CDELT1", (1:ℝ))] 0).2 1 rfl⟩

/-- C7 counterexample: at redshift exactly 0 (which the claim admits) and
pixel step 1 > 0, the computed physical pixel size is 0, not strictly
positive: the proper transverse distance per unit angle vanishes at z = 0. -/
theorem pix_scale_pc_not_pos_at_zero_redshift :
    (0:ℝ) ≤ 0 ∧ (0:ℝ) < 1 ∧ ¬ (0 < pix_scale_pc 1 0) := by
  refine ⟨le_refl 0, one_pos, ?_⟩
  have h : pix_scale_pc 1 0 = 0 := by
    unfold pix_scale_pc properDistPerArcsec
    rw [intervalIntegral.integral_same]
    ring
  rw [h]
  exact lt_irrefl 0

/-- Helper: the dimensionless Hubble rate is strictly positive at
nonnegative redshift. -/
theorem Efunc_pos (x : ℝ) (hx : 0 ≤ x) : 0 < Efunc x := by
  unfold Efunc
  apply Real.sqrt_pos.mpr
  have h1 : (0:ℝ) < Om0 := by norm_num [Om0]
  have h2 : (0:ℝ) < (1 + x)^3 := pow_pos (by linarith) 3
  have h3 : (0:ℝ) < 1 - Om0 := by norm_num [Om0]
  nlinarith

/-- Helper: the comoving-distance integrand is interval integrable on
[0, z]. -/
theorem integrand_intervalIntegrable (z : ℝ) (hz : 0 ≤ z) :
    IntervalIntegrable (fun x => 1 / Efunc x) MeasureTheory.volume 0 z := by
  apply ContinuousOn.intervalIntegrable
  rw [Set.uIcc_of_le hz]
  apply ContinuousOn.div continuousOn_const
  · apply Continuous.continuousOn
    unfold Efunc
    exact Real.continuous_sqrt.comp
      ((continuous_const.mul ((continuous_const.add continuous_id).pow 3)).add
        continuous_const)
  · intro x hx
    exact (Efunc_pos x hx.1).ne'

/-- C7 (amended): for every redshift strictly greater than 0 and every
positive pixel step, the physical pixel size is strictly positive, and at
fixed redshift it is a linear (homogeneous and additive) function of the
pixel step.  (Strict positivity fails at z = 0: see the counterexample.) -/
theorem pix_scale_pc_pos_and_linear (s z a : ℝ) (hs : 0 < s) (hz : 0 < z) :
    0 < pix_scale_pc s z ∧
    pix_scale_pc (a * s) z = a * pix_scale_pc s z ∧
    pix_scale_pc (s + a) z = pix_scale_pc s z + pix_scale_pc a z := by
  refine ⟨?_, by unfold pix_scale_pc; ring, by unfold pix_scale_pc; ring⟩
  have hint : 0 < ∫ x in (0:ℝ)..z, 1 / Efunc x := by
    apply intervalIntegral.intervalIntegral_pos_of_pos_on
      (integrand_intervalIntegrable z hz.le)
    · intro x hx
      exact div_pos one_pos (Efunc_pos x (le_of_lt hx.1))
    · exact hz
  have hHD : (0:ℝ) < hubbleDistanceMpc := by norm_num [hubbleDistanceMpc]
  have h1z : (0:ℝ) < 1 + z := by linarith
  unfold pix_scale_pc properDistPerArcsec
  have hpos : 0 < (hubbleDistanceMpc * ∫ x in (0:ℝ)..z, 1 / Efunc x) / (1 + z) *
      (Real.pi / 648000) * 1000000 := by
    apply mul_pos
    · apply mul_pos
      · exact div_pos (mul_pos hHD hint) h1z
      · positivity
    · norm_num
  exact mul_pos hs hpos

/-- Witness for C7 (amended): at redshift 1 and pixel step 1 the size is
positive, doubling the step doubles it, and steps add. -/
theorem pix_scale_pc_pos_and_linear_witness :
    0 < pix_scale_pc 1 1 ∧
    pix_scale_pc (2 * 1) 1 = 2 * pix_scale_pc 1 1 ∧
    pix_scale_pc (1 + 2) 1 = pix_scale_pc 1 1 + pix_scale_pc 2 1 :=
  pix_scale_pc_pos_and_linear 1 1 2 one_pos one_pos

end NGC7469
